import Mathlib

/-!
Verification of the Approval Intake & Promotion Engine of the
git-for-sql repository against its natural-language specification.

The TypeScript sources are shallowly embedded: pure helpers become Lean
functions on `List Char` / `String`, the database-backed registry and the
audit log become explicit state threaded through step functions, and the
external collaborators (PostgreSQL driver, GitHub client, node crypto)
are modelled at their interface boundary, exactly as the spec scopes
them.  JavaScript quirks that the code relies on (falsiness of the empty
string and of 0, first-occurrence-only `replace`, regex scanning) are
embedded explicitly.
-/

/-! ### Character and list utilities (embedding JS string primitives) -/

/-- ASCII lower-casing, mirroring `String.prototype.toLowerCase` on the
ASCII range the sources use. -/
def lowChar (c : Char) : Char :=
  if 65 ≤ c.toNat ∧ c.toNat ≤ 90 then Char.ofNat (c.toNat + 32) else c

/-- ASCII upper-casing, mirroring `String.prototype.toUpperCase` on the
ASCII range the sources use. -/
def upChar (c : Char) : Char :=
  if 97 ≤ c.toNat ∧ c.toNat ≤ 122 then Char.ofNat (c.toNat - 32) else c

/-- The whitespace class of JS `\s` / `trim` restricted to ASCII. -/
def jsSpace (c : Char) : Bool :=
  c == ' ' || c == '\t' || c == '\n' || c == '\r' ||
  c == Char.ofNat 11 || c == Char.ofNat 12

/-- Lower-case every character (JS `toLowerCase`). -/
def lowerList (l : List Char) : List Char := l.map lowChar

/-- Upper-case every character (JS `toUpperCase`). -/
def upperList (l : List Char) : List Char := l.map upChar

/-- JS `String.prototype.trim` on a character list. -/
def trimChars (l : List Char) : List Char :=
  ((l.dropWhile jsSpace).reverse.dropWhile jsSpace).reverse

/-- `startsList l p` holds when `l` starts with `p` (JS `startsWith`). -/
def startsList : List Char → List Char → Bool
  | _, [] => true
  | [], _ :: _ => false
  | c :: cs, p :: ps => c == p && startsList cs ps

/-- `endsList l p` holds when `l` ends with `p` (JS `endsWith`). -/
def endsList (l p : List Char) : Bool :=
  startsList l.reverse p.reverse

/-- `hasSub p l` holds when `p` occurs as a contiguous substring of `l`
(JS `includes`). -/
def hasSub (p : List Char) : List Char → Bool
  | [] => p.isEmpty
  | c :: rest => startsList (c :: rest) p || hasSub p rest

/-- Split a character list on a separator character; mirrors JS
`String.prototype.split` with a single-character separator. -/
def splitOn (sep : Char) : List Char → List (List Char)
  | [] => [[]]
  | c :: rest =>
    if c == sep then [] :: splitOn sep rest
    else
      match splitOn sep rest with
      | [] => [[c]]
      | l :: ls => (c :: l) :: ls

/-! ### Metadata parser (src/app/lib/github.server.ts, parseSQLMetadata) -/

/-- The metadata record built by `parseSQLMetadata`; every field is
optional, a `none` field models an absent property on the JS object. -/
structure SQLMetadata where
  author : Option (List Char) := none
  purpose : Option (List Char) := none
  target : Option (List Char) := none
  date : Option (List Char) := none
  directProd : Option Bool := none
deriving DecidableEq, Repr

/-- Case-insensitive strip of a pattern from the front of a list: on
success returns the matched characters (original case) and the rest.
Embeds a literal run inside a `/i` regular expression. -/
def stripCI : List Char → List Char → Option (List Char × List Char)
  | [], l => some ([], l)
  | _ :: _, [] => none
  | p :: ps, c :: cs =>
    if lowChar c = lowChar p then
      match stripCI ps cs with
      | some pr => some (c :: pr.1, pr.2)
      | none => none
    else none

/-- The optional capture group `(true|yes|1)?` of the DirectProd regex:
returns the captured characters when one alternative matches here. -/
def grabVal (cs : List Char) : Option (List Char) :=
  match stripCI "true".toList cs with
  | some pr => some pr.1
  | none =>
    match stripCI "yes".toList cs with
    | some pr => some pr.1
    | none =>
      match cs with
      | c :: _ => if c = '1' then some ['1'] else none
      | [] => none

/-- Attempt of the regex `--\s*DirectProd\s*:?\s*(true|yes|1)?` (flag
`i`) anchored at the head of the list; `some cap` is a match whose
capture group is `cap`. -/
def matchDPAt : List Char → Option (Option (List Char))
  | c1 :: c2 :: rest =>
    if c1 = '-' ∧ c2 = '-' then
      let r1 := rest.dropWhile (fun c => jsSpace c)
      match stripCI "directprod".toList r1 with
      | none => none
      | some pr =>
        let r3 := match pr.2 with
          | ':' :: t => t
          | other => other
        some (grabVal (r3.dropWhile (fun c => jsSpace c)))
    else none
  | _ => none

/-- Scan of `line.match` with the DirectProd pattern: the first
position at which the pattern matches wins. -/
def directProdMatch : List Char → Option (Option (List Char))
  | [] => none
  | c :: rest =>
    match matchDPAt (c :: rest) with
    | some r => some r
    | none => directProdMatch rest

/-- The boolean the source computes from the capture group:
`match[1]?.toLowerCase() === "true" || === "yes" || match[1] === "1" ||
!match[1]`. -/
def capTrue : Option (List Char) → Bool
  | none => true
  | some v =>
    lowerList v == "true".toList || lowerList v == "yes".toList || v == "1".toList

/-- The value stored into `metadata.directProd` for a line that entered
the DirectProd branch: `match ? (...) : false`. -/
def directProdLineVal (line : List Char) : Bool :=
  match directProdMatch line with
  | some cap => capTrue cap
  | none => false

/-- Whether `lowerLine.includes` finds one of the three DirectProd
spellings (the branch condition of the parser's final `else if`). -/
def dpMention (line : List Char) : Bool :=
  let low := trimChars (lowerList line)
  hasSub "directprod".toList low || hasSub "direct-prod".toList low ||
    hasSub "direct_prod".toList low

/-- One iteration of the parser's `for` loop over a line; the `else if`
chain of the source is kept verbatim, including that a line is consumed
by the first directive prefix it starts with. -/
def processLine (m : SQLMetadata) (line : List Char) : SQLMetadata :=
  if startsList line "-- Author:".toList then
    { m with author := some (trimChars (line.drop 10)) }
  else if startsList line "-- Purpose:".toList then
    { m with purpose := some (trimChars (line.drop 11)) }
  else if startsList line "-- Target:".toList then
    { m with target := some (trimChars (line.drop 10)) }
  else if startsList line "-- Date:".toList then
    { m with date := some (trimChars (line.drop 8)) }
  else if dpMention line then
    { m with directProd := some (directProdLineVal line) }
  else m

/-- `parseSQLMetadata`: fold the per-line step over the first 20 lines
of the body (`content.split("\n").slice(0, 20)`). -/
def parseSQLMetadata (content : String) : SQLMetadata :=
  ((splitOn '\n' content.toList).take 20).foldl processLine {}

/-! ### Target extraction (extractTargetDatabase) -/

/-- The two execution environments. -/
inductive DBTarget
  | staging
  | production
deriving DecidableEq, Repr

/-- `extractTargetDatabase(filePath, content?)`: metadata-only
detection.  JS falsiness of the empty string is embedded explicitly for
both the optional `content` argument and the parsed `target` field. -/
def extractTargetDatabase (filePath : String) (content : Option String) :
    Option DBTarget :=
  let _ := filePath
  match content with
  | none => none
  | some c =>
    if c = "" then none
    else
      match (parseSQLMetadata c).target with
      | none => none
      | some t =>
        if t = [] then none
        else
          let tl := lowerList t
          if tl = "staging".toList then some DBTarget.staging
          else if tl = "production".toList then some DBTarget.production
          else none

/-- The caller-side default: `extractTargetDatabase(...) || "staging"`
as written in both the webhook route and the sync loop. -/
def resolvedTargetDb (filePath : String) (content : Option String) : DBTarget :=
  (extractTargetDatabase filePath content).getD DBTarget.staging

/-! ### SQL classification and executeSQL (src/app/lib/db.server.ts) -/

/-- Drop a line comment: everything from the first `--` to the end of
the line, per line, as the first `replace` of `executeSQL` does. -/
def dropLineComment : List Char → List Char
  | [] => []
  | '-' :: '-' :: _ => []
  | c :: rest => c :: dropLineComment rest

/-- Skip through the first closing `*` `/` pair; `some rest` is the
text after it. -/
def findClose : List Char → Option (List Char)
  | [] => none
  | '*' :: '/' :: rest => some rest
  | _ :: rest => findClose rest

/-- Fuel-driven removal of closed block comments, embedding the global
non-greedy block-comment `replace`: each opener paired with the nearest
closer is removed, and an opener with no closer anywhere after it is
left in place (the regex then has no further match). -/
def dropBlockAux : Nat → List Char → List Char
  | 0, l => l
  | _ + 1, [] => []
  | fuel + 1, '/' :: '*' :: rest =>
    (match findClose rest with
     | some rem => dropBlockAux fuel rem
     | none => '/' :: '*' :: rest)
  | fuel + 1, c :: rest => c :: dropBlockAux fuel rest

/-- Block-comment removal with enough fuel for the whole input. -/
def dropBlockComments (l : List Char) : List Char :=
  dropBlockAux l.length l

/-- The SELECT-classification heuristic of `executeSQL`: strip line
comments, strip block comments, trim, upper-case, test the prefix. -/
def isSelectQuery (sql : String) : Bool :=
  let noLine :=
    List.intercalate ['\n'] ((splitOn '\n' sql.toList).map dropLineComment)
  startsList (upperList (trimChars (dropBlockComments noLine))) "SELECT".toList

/-- A result row as returned by the driver: a map of column names to
values. -/
abbrev RowData := List (String × String)

/-- What a successful `pool.query` resolves with: `rows` may be absent
for some statement kinds, `rowCount` is nullable. -/
structure QueryOutcome where
  rows : Option (List RowData)
  rowCount : Option Nat
deriving DecidableEq, Repr

/-- The `ExecutionResult` interface of the sources; absent JS fields are
`none`. -/
structure ExecutionResult where
  success : Bool
  rowsAffected : Option Nat := none
  executionTime : Option Nat := none
  error : Option String := none
  resultRows : Option (List RowData) := none
deriving DecidableEq, Repr

/-- `executeSQL(target, sql)`: the external driver call is the explicit
`outcome` argument (resolved result, or thrown error message) and the
measured wall-clock duration is `elapsed`.  The error branch embeds
`error.message || "Unknown error occurred"`. -/
def executeSQL (sql : String) (outcome : Except String QueryOutcome)
    (elapsed : Nat) : ExecutionResult :=
  match outcome with
  | .error e =>
    { success := false
      error := some (if e = "" then "Unknown error occurred" else e)
      executionTime := some elapsed }
  | .ok res =>
    let isSel := isSelectQuery sql
    let resultRows : Option (List RowData) :=
      if isSel then
        match res.rows with
        | some rs => if 0 < rs.length then some rs else none
        | none => none
      else none
    let limitedRows : Option (List RowData) :=
      match resultRows with
      | some rs => if 100 < rs.length then some (rs.take 100) else some rs
      | none => none
    let rowsAffected : Nat :=
      if isSel then (res.rows.map List.length).getD 0 else res.rowCount.getD 0
    { success := true
      rowsAffected := some rowsAffected
      executionTime := some elapsed
      resultRows := limitedRows }

/-! ### The approved_scripts registry (audit database)

One row per unique `script_name` (the table's UNIQUE constraint), so the
registry is an association list keyed by name; the SERIAL id of a row is
in bijection with its name and the sources' id-keyed lookups are
embedded as name-keyed lookups. -/

/-- A row of `approved_scripts`; the INSERT leaves the execution flags
at their schema defaults (`false` / NULL). -/
structure ScriptRow where
  content : String
  targetDatabase : DBTarget
  githubPrUrl : String
  approvers : List String
  approvedAt : Nat
  stagingExecuted : Bool
  stagingExecutedAt : Option Nat
  productionExecuted : Bool
  productionExecutedAt : Option Nat
  directProd : Bool
deriving DecidableEq, Repr

/-- The `approved_scripts` table. -/
abbrev Registry := List (String × ScriptRow)

/-- `SELECT ... WHERE script_name = $1` (first matching row). -/
def lookupScript : Registry → String → Option ScriptRow
  | [], _ => none
  | (n, r) :: rest, m => if n = m then some r else lookupScript rest m

/-- The argument record of `addApprovedScript`. -/
structure UpsertData where
  scriptName : String
  scriptContent : String
  targetDatabase : DBTarget
  githubPrUrl : String
  approvers : List String
  directProd : Bool
deriving DecidableEq, Repr

/-- The row created by the INSERT branch of the upsert: execution flags
take their schema defaults. -/
def freshRow (d : UpsertData) (now : Nat) : ScriptRow :=
  { content := d.scriptContent
    targetDatabase := d.targetDatabase
    githubPrUrl := d.githubPrUrl
    approvers := d.approvers
    approvedAt := now
    stagingExecuted := false
    stagingExecutedAt := none
    productionExecuted := false
    productionExecutedAt := none
    directProd := d.directProd }

/-- The ON CONFLICT DO UPDATE branch: content, PR url, approvers,
direct_prod and approved_at are overwritten; target_database and the
execution flags/timestamps are preserved. -/
def mergeRow (old : ScriptRow) (d : UpsertData) (now : Nat) : ScriptRow :=
  { old with
    content := d.scriptContent
    githubPrUrl := d.githubPrUrl
    approvers := d.approvers
    directProd := d.directProd
    approvedAt := now }

/-- `addApprovedScript`: atomic insert-or-update keyed on the unique
script name. -/
def addApprovedScript : Registry → UpsertData → Nat → Registry
  | [], d, now => [(d.scriptName, freshRow d now)]
  | (n, r) :: rest, d, now =>
    if n = d.scriptName then (n, mergeRow r d now) :: rest
    else (n, r) :: addApprovedScript rest d now

/-- The per-environment UPDATE of `updateScriptExecutionStatus`. -/
def markExecuted (target : DBTarget) (now : Nat) (r : ScriptRow) : ScriptRow :=
  match target with
  | DBTarget.staging =>
    { r with stagingExecuted := true, stagingExecutedAt := some now }
  | DBTarget.production =>
    { r with productionExecuted := true, productionExecutedAt := some now }

/-- `updateScriptExecutionStatus`: conditional update of the identified
row's flag and timestamp for the given environment. -/
def updateScriptExecutionStatus : Registry → String → DBTarget → Nat → Registry
  | [], _, _, _ => []
  | (n, r) :: rest, name, target, now =>
    if n = name then (n, markExecuted target now r) :: rest
    else (n, r) :: updateScriptExecutionStatus rest name target now

/-- `canExecuteOnProduction`: false when the row is missing, otherwise
`staging_executed === true || direct_prod === true`. -/
def canExecuteOnProduction (reg : Registry) (name : String) : Bool :=
  match lookupScript reg name with
  | none => false
  | some r => r.stagingExecuted || r.directProd

/-! ### Audit log (sql_execution_log) and the execute action route -/

/-- A row of `sql_execution_log`.  The `logExecution` INSERT coerces
falsy JS values (`0`, `""`, absent) to NULL with `|| null`; that
coercion is applied by `mkLogEntry` below. -/
structure LogEntry where
  scriptName : String
  scriptContent : String
  executedBy : String
  targetDatabase : DBTarget
  success : Bool
  rowsAffected : Option Nat
  errorMessage : Option String
  executionTimeMs : Option Nat
  githubPrUrl : Option String
  approvers : List String
  resultData : Option (List RowData)
deriving DecidableEq, Repr

/-- `x || null` for an optional number: 0 and absent both become NULL. -/
def jsOrNullNat : Option Nat → Option Nat
  | some n => if n = 0 then none else some n
  | none => none

/-- `x || null` for an optional string: "" and absent both become NULL. -/
def jsOrNullStr : Option String → Option String
  | some s => if s = "" then none else some s
  | none => none

/-- The log row built by the script-detail action from the script row
and the `ExecutionResult`, then inserted by `logExecution`. -/
def mkLogEntry (script : ScriptRow) (name user : String) (target : DBTarget)
    (res : ExecutionResult) : LogEntry :=
  { scriptName := name
    scriptContent := script.content
    executedBy := user
    targetDatabase := target
    success := res.success
    rowsAffected := jsOrNullNat res.rowsAffected
    errorMessage := jsOrNullStr res.error
    executionTimeMs := jsOrNullNat res.executionTime
    githubPrUrl := if script.githubPrUrl = "" then none else some script.githubPrUrl
    approvers := script.approvers
    resultData := res.resultRows }

/-- The persistent state the core mutates: the script registry and the
append-only audit log. -/
structure SysState where
  registry : Registry
  log : List LogEntry
deriving DecidableEq, Repr

/-- The caller-visible outcome of the script-detail action. -/
inductive ActionOutcome
  | notFound
  | refused
  | executed (success : Bool)
deriving DecidableEq, Repr

/-- The execute action of the script-detail route: look the script up,
enforce the staging-first guard for production requests, dispatch the
SQL (its external outcome is the `res` argument), always log exactly one
entry for a dispatched attempt, and advance the promotion flag only on
success. -/
def executeScriptAction (s : SysState) (name user : String) (target : DBTarget)
    (res : ExecutionResult) (now : Nat) : SysState × ActionOutcome :=
  match lookupScript s.registry name with
  | none => (s, ActionOutcome.notFound)
  | some script =>
    if target = DBTarget.production ∧ canExecuteOnProduction s.registry name = false then
      (s, ActionOutcome.refused)
    else
      let entry := mkLogEntry script name user target res
      let reg2 :=
        if res.success then updateScriptExecutionStatus s.registry name target now
        else s.registry
      ({ registry := reg2, log := s.log ++ [entry] }, ActionOutcome.executed res.success)

/-- One externally triggered operation on the stored state: a webhook
upsert (always insert-or-update), a full-sync upsert (the sync loop
skips names already present), or an execution attempt whose external SQL
outcome is carried in the event. -/
inductive Event
  | webhookUpsert (d : UpsertData) (now : Nat)
  | syncUpsert (d : UpsertData) (now : Nat)
  | execute (name user : String) (target : DBTarget) (res : ExecutionResult) (now : Nat)

/-- Apply one event to the state. -/
def stepEvent (s : SysState) : Event → SysState
  | Event.webhookUpsert d now =>
    { s with registry := addApprovedScript s.registry d now }
  | Event.syncUpsert d now =>
    if (lookupScript s.registry d.scriptName).isSome then s
    else { s with registry := addApprovedScript s.registry d now }
  | Event.execute name user target res now =>
    (executeScriptAction s name user target res now).1

/-- The empty stores. -/
def initState : SysState := { registry := [], log := [] }

/-- Run a sequence of events from the empty stores. -/
def runTrace (events : List Event) : SysState :=
  events.foldl stepEvent initState

/-- Per-row form of the spec's storage invariant: never production-
executed while both unstaged and without the bypass flag. -/
def scriptRowOk (r : ScriptRow) : Bool :=
  !(r.productionExecuted && !r.stagingExecuted && !r.directProd)

/-- The spec's claimed storage invariant over the whole registry. -/
def registryInvariant (reg : Registry) : Bool :=
  reg.all (fun p => scriptRowOk p.2)

/-! ### Review-platform client (src/app/lib/github.server.ts)

Each client function is embedded as a function of the underlying
platform call's outcome (`Except.error` models a rejected promise).  The
embedding keeps the sources' catch-handlers, which swallow the error and
return an empty default. -/

/-- A review as returned by `pulls.listReviews`: its state and the
optional `user.login`. -/
structure ReviewInfo where
  state : String
  user : Option String
deriving DecidableEq, Repr

/-- A changed file as returned by `pulls.listFiles`. -/
structure PRFileInfo where
  filename : String
  status : String
deriving DecidableEq, Repr

/-- `[...new Set(xs)]`: deduplicate keeping first occurrences. -/
def dedupKeepFirst : List String → List String
  | [] => []
  | x :: rest =>
    if x ∈ rest then
      let tail := dedupKeepFirst rest
      tail
    else x :: dedupKeepFirst rest

/-- `getPRApprovers`: on platform failure the catch-handler returns the
empty list; on success, the deduplicated logins of APPROVED reviews,
with a missing login replaced by "unknown". -/
def getPRApprovers (outcome : Except String (List ReviewInfo)) : List String :=
  match outcome with
  | Except.error _ => []
  | Except.ok reviews =>
    dedupKeepFirst
      ((reviews.filter (fun r => r.state = "APPROVED")).map
        (fun r => r.user.getD "unknown"))

/-- `getPRFiles`: on platform failure the catch-handler returns the
empty list; on success, the (filename, status) pairs. -/
def getPRFiles (outcome : Except String (List PRFileInfo)) :
    List (String × String) :=
  match outcome with
  | Except.error _ => []
  | Except.ok files => files.map (fun f => (f.filename, f.status))

/-- `fetchScriptFromGitHub`: on platform failure the catch-handler
returns null; a successful response whose data has no `content` field
also returns null.  `Except.ok c` carries the decoded content when the
response was file-like. -/
def fetchScriptFromGitHub (outcome : Except String (Option String)) :
    Option String :=
  match outcome with
  | Except.error _ => none
  | Except.ok c => c

/-! ### Full sync (syncScriptsFromGitHub) -/

/-- A merged pull request as the sync loop sees it, with the responses
of the per-PR platform calls already resolved: `approvers` is the
`getPRApprovers` result and `files` the `getPRFiles` result. -/
structure SyncPR where
  number : Nat
  htmlUrl : String
  approvers : List String
  files : List (String × String)
deriving DecidableEq, Repr

/-- `file.filename.split("/").pop() || file.filename`: the last path
segment, falling back to the whole name when that segment is empty. -/
def scriptNameOf (fname : String) : String :=
  match (splitOn '/' fname.toList).getLast? with
  | none => fname
  | some seg => if seg = [] then fname else String.mk seg

/-- The SQL-file filter of both ingestion paths: `.sql` suffix and a
non-removed change status. -/
def qualifiesSQL (f : String × String) : Bool :=
  endsList f.1.toList ".sql".toList && f.2 ≠ "removed"

/-- The working state of one sync pass: the registry, the in-run set of
known script names, and the running tallies. -/
structure SyncState where
  reg : Registry
  known : List String
  synced : Nat
  skipped : Nat
  errors : Nat
deriving DecidableEq, Repr

/-- The names present in the registry (`getExistingScriptNames`). -/
def namesOf (reg : Registry) : List String := reg.map (fun p => p.1)

/-- The `UpsertData` both ingestion paths build from a fetched script
body. -/
def upsertDataFor (name content prUrl : String) (approvers : List String) :
    UpsertData :=
  { scriptName := name
    scriptContent := content
    targetDatabase := resolvedTargetDb name (some content)
    githubPrUrl := prUrl
    approvers := approvers
    directProd := (parseSQLMetadata content).directProd == some true }

/-- The per-file body of the sync loop: skip known names, count a
failed fetch as an error, otherwise upsert and extend the in-run set. -/
def syncFileStep (fetch : String → Option String) (prUrl : String)
    (approvers : List String) (now : Nat) (acc : SyncState)
    (f : String × String) : SyncState :=
  let name := scriptNameOf f.1
  if name ∈ acc.known then { acc with skipped := acc.skipped + 1 }
  else
    match fetch f.1 with
    | none => { acc with errors := acc.errors + 1 }
    | some content =>
      { reg := addApprovedScript acc.reg (upsertDataFor name content prUrl approvers) now
        known := name :: acc.known
        synced := acc.synced + 1
        skipped := acc.skipped
        errors := acc.errors }

/-- The per-PR body of the sync loop: skip on insufficient approvals or
no qualifying SQL files, otherwise process each file in order. -/
def syncPRStep (fetch : String → Option String) (minApprovals now : Nat)
    (acc : SyncState) (pr : SyncPR) : SyncState :=
  if pr.approvers.length < minApprovals then
    { acc with skipped := acc.skipped + 1 }
  else
    let sqlFiles := pr.files.filter qualifiesSQL
    if sqlFiles.isEmpty then { acc with skipped := acc.skipped + 1 }
    else sqlFiles.foldl (syncFileStep fetch pr.htmlUrl pr.approvers now) acc

/-- `syncScriptsFromGitHub`: load the existing names once, then walk the
merged PRs; `fetch` is the (deterministic) content-fetch capability. -/
def syncScriptsFromGitHub (prs : List SyncPR) (fetch : String → Option String)
    (minApprovals : Nat) (reg : Registry) (now : Nat) : SyncState :=
  prs.foldl (syncPRStep fetch minApprovals now)
    { reg := reg, known := namesOf reg, synced := 0, skipped := 0, errors := 0 }

/-! ### Webhook ingestion (src/app/routes/api.webhook.github.ts) -/

/-- The fields of the parsed webhook payload the route consults. -/
structure WebhookEventData where
  action : String
  merged : Bool
  number : Nat
  htmlUrl : String
deriving DecidableEq, Repr

/-- The per-PR platform capabilities the webhook route calls, already
keyed by PR number, plus the content fetch. -/
structure PlatformEnv where
  approversOf : Nat → List String
  filesOf : Nat → List (String × String)
  fetch : String → Option String

/-- The responses of the webhook route, in source order. -/
inductive WebhookResponse
  | methodNotAllowed
  | invalidSignature
  | invalidJson
  | notMergedPR
  | insufficientApprovals (got need : Nat)
  | noSqlFiles
  | processed (results : List (String × Bool × DBTarget))
deriving DecidableEq, Repr

/-- `verifyWebhookSignature(payload, signature)`: with no configured
secret (the config default is the empty string, falsy in JS) every
request passes with a warning; otherwise the claimed signature must
equal "sha256=" followed by the hex HMAC-SHA256 digest of the raw body
under the secret.  The node crypto primitive is the external `hmacHex`
capability. -/
def verifyWebhookSignature (hmacHex : String → String → String)
    (webhookSecret payload signature : String) : Bool :=
  if webhookSecret = "" then true
  else signature == "sha256=" ++ hmacHex webhookSecret payload

/-- The webhook action: method filter, signature check, JSON parse,
merged-PR filter, approval threshold, SQL-file filter, then per-file
fetch/parse/upsert with fetch failures skipped. -/
def webhookAction (hmacHex : String → String → String)
    (webhookSecret : String) (minApprovals : Nat) (method : String)
    (signatureHeader : Option String) (payload : String)
    (parseJson : String → Option WebhookEventData) (env : PlatformEnv)
    (reg : Registry) (now : Nat) : Registry × WebhookResponse :=
  if method ≠ "POST" then (reg, WebhookResponse.methodNotAllowed)
  else
    let signature := signatureHeader.getD ""
    if verifyWebhookSignature hmacHex webhookSecret payload signature = false then
      (reg, WebhookResponse.invalidSignature)
    else
      match parseJson payload with
      | none => (reg, WebhookResponse.invalidJson)
      | some ev =>
        if ev.action ≠ "closed" ∨ ev.merged = false then
          (reg, WebhookResponse.notMergedPR)
        else
          let approvers := env.approversOf ev.number
          if approvers.length < minApprovals then
            (reg, WebhookResponse.insufficientApprovals approvers.length minApprovals)
          else
            let sqlFiles := (env.filesOf ev.number).filter qualifiesSQL
            if sqlFiles.isEmpty then (reg, WebhookResponse.noSqlFiles)
            else
              let fileStep :=
                fun (acc : Registry × List (String × Bool × DBTarget))
                    (f : String × String) =>
                  match env.fetch f.1 with
                  | none => acc
                  | some content =>
                    let d := upsertDataFor (scriptNameOf f.1) content ev.htmlUrl approvers
                    (addApprovedScript acc.1 d now,
                      acc.2 ++ [(f.1, true, d.targetDatabase)])
              let out := sqlFiles.foldl fileStep (reg, [])
              (out.1, WebhookResponse.processed out.2)

/-! ### Derived notions used by the statements below -/

/-- The exact condition under which a line reaches the parser's
DirectProd branch: it starts with none of the four directive prefixes
and its lower-cased trimmed form mentions one of the three spellings. -/
def trigDP (line : List Char) : Bool :=
  !startsList line "-- Author:".toList && !startsList line "-- Purpose:".toList &&
    !startsList line "-- Target:".toList && !startsList line "-- Date:".toList &&
    dpMention line

/-- Accumulator step recording the most recent DirectProd-branch line. -/
def updLast (acc : Option (List Char)) (l : List Char) : Option (List Char) :=
  if trigDP l then some l else acc

/-- The last line (among the given ones) that reaches the DirectProd
branch; the parser's flag is decided by this line alone. -/
def lastDPLine (lines : List (List Char)) : Option (List Char) :=
  lines.foldl updLast none

/-- The 20-line metadata window of a script body. -/
def first20 (content : String) : List (List Char) :=
  (splitOn '\n' content.toList).take 20

/-- A registry row used as concrete input by several witnesses. -/
def sampleRow (staged direct : Bool) : ScriptRow :=
  { content := "UPDATE t SET x = 1;"
    targetDatabase := DBTarget.staging
    githubPrUrl := "pr"
    approvers := ["alice", "bob"]
    approvedAt := 0
    stagingExecuted := staged
    stagingExecutedAt := none
    productionExecuted := false
    productionExecutedAt := none
    directProd := direct }

/-- A successful driver outcome used as concrete input by witnesses. -/
def sampleResult : ExecutionResult :=
  { success := true, rowsAffected := some 3, executionTime := some 5 }

/-- A platform environment with no data, used as concrete input. -/
def trivialEnv : PlatformEnv :=
  { approversOf := fun _ => [], filesOf := fun _ => [], fetch := fun _ => none }

/-- First webhook upsert of the C1 counterexample trace: the script
arrives with the DirectProd marker set. -/
def c1Data1 : UpsertData :=
  { scriptName := "a.sql"
    scriptContent := "-- DirectProd\nUPDATE t SET x = 1;"
    targetDatabase := DBTarget.staging
    githubPrUrl := "pr1"
    approvers := ["alice", "bob"]
    directProd := true }

/-- Second webhook upsert of the C1 counterexample trace: the same
script name is re-merged without the marker. -/
def c1Data2 : UpsertData :=
  { c1Data1 with scriptContent := "UPDATE t SET x = 1;", directProd := false }

/-- The C1 counterexample trace: register with bypass, execute on
production successfully, then re-upsert without the bypass flag. -/
def c1Trace : List Event :=
  [Event.webhookUpsert c1Data1 0,
   Event.execute "a.sql" "op" DBTarget.production sampleResult 1,
   Event.webhookUpsert c1Data2 2]

/-- The single merged PR of the C4 counterexample: enough approvals and
one qualifying SQL file. -/
def c4PR : SyncPR :=
  { number := 1, htmlUrl := "u", approvers := ["alice", "bob"],
    files := [("sql/x.sql", "added")] }

/-! ### Helper lemmas -/

theorem stripCI_lower : ∀ (ps cs m r : List Char),
    stripCI ps cs = some (m, r) → lowerList m = lowerList ps := by
  intro ps
  induction ps with
  | nil =>
    intro cs m r h
    simp [stripCI] at h
    simp [h.1, lowerList]
  | cons p ps ih =>
    intro cs m r h
    cases cs with
    | nil => simp [stripCI] at h
    | cons c cs2 =>
      simp only [stripCI] at h
      split at h
      · rename_i hc
        cases hs : stripCI ps cs2 with
        | none => rw [hs] at h; simp at h
        | some pr =>
          rw [hs] at h
          simp at h
          obtain ⟨hm, _⟩ := h
          subst hm
          simp only [lowerList, List.map_cons]
          have := ih cs2 pr.1 pr.2 (by rw [hs])
          simp only [lowerList] at this
          rw [hc, this]
      · simp at h

theorem grabVal_capTrue (cs : List Char) : capTrue (grabVal cs) = true := by
  unfold grabVal
  cases h1 : stripCI "true".toList cs with
  | some pr =>
    have hl := stripCI_lower _ _ pr.1 pr.2 (by rw [h1])
    simp [capTrue, hl]
    left
    decide
  | none =>
    cases h2 : stripCI "yes".toList cs with
    | some pr =>
      have hl := stripCI_lower _ _ pr.1 pr.2 (by rw [h2])
      simp [capTrue, hl]
      left
      decide
    | none =>
      cases cs with
      | nil => simp [capTrue]
      | cons c rest =>
        by_cases hc : c = '1'
        · simp [hc, capTrue]
        · simp [hc, capTrue]

theorem matchDPAt_capTrue : ∀ (l : List Char) (cap : Option (List Char)),
    matchDPAt l = some cap → capTrue cap = true := by
  intro l cap h
  match l with
  | [] => simp [matchDPAt] at h
  | [c] => simp [matchDPAt] at h
  | c1 :: c2 :: rest =>
    simp only [matchDPAt] at h
    split at h
    · split at h
      · simp at h
      · simp at h
        subst h
        exact grabVal_capTrue _
    · simp at h

theorem directProdMatch_capTrue : ∀ (l : List Char) (cap : Option (List Char)),
    directProdMatch l = some cap → capTrue cap = true := by
  intro l
  induction l with
  | nil => intro cap h; simp [directProdMatch] at h
  | cons c rest ih =>
    intro cap h
    simp only [directProdMatch] at h
    cases hm : matchDPAt (c :: rest) with
    | some r =>
      rw [hm] at h
      simp at h
      subst h
      exact matchDPAt_capTrue _ _ hm
    | none =>
      rw [hm] at h
      exact ih _ h

theorem directProdLineVal_isSome (l : List Char) :
    directProdLineVal l = (directProdMatch l).isSome := by
  unfold directProdLineVal
  cases h : directProdMatch l with
  | none => simp
  | some cap => simp [directProdMatch_capTrue _ _ h]

theorem processLine_dp_trig (m : SQLMetadata) (l : List Char)
    (h : trigDP l = true) :
    (processLine m l).directProd = some (directProdLineVal l) := by
  unfold trigDP at h
  simp only [Bool.and_eq_true, Bool.not_eq_true'] at h
  obtain ⟨⟨⟨⟨h1, h2⟩, h3⟩, h4⟩, h5⟩ := h
  unfold processLine
  rw [h1, h2, h3, h4, h5]
  simp

theorem processLine_dp_not_trig (m : SQLMetadata) (l : List Char)
    (h : trigDP l = false) :
    (processLine m l).directProd = m.directProd := by
  unfold processLine
  cases h1 : startsList l "-- Author:".toList with
  | true => simp
  | false =>
    cases h2 : startsList l "-- Purpose:".toList with
    | true => simp
    | false =>
      cases h3 : startsList l "-- Target:".toList with
      | true => simp
      | false =>
        cases h4 : startsList l "-- Date:".toList with
        | true => simp
        | false =>
          cases h5 : dpMention l with
          | false => simp
          | true =>
            have htrig : trigDP l = true := by
              unfold trigDP
              rw [h1, h2, h3, h4, h5]
              rfl
            rw [h] at htrig
            exact Bool.noConfusion htrig

theorem foldl_updLast (xs : List (List Char)) (a : Option (List Char)) :
    xs.foldl updLast a =
      match xs.foldl updLast none with
      | some l => some l
      | none => a := by
  induction xs generalizing a with
  | nil => simp
  | cons y ys ih =>
    simp only [List.foldl_cons]
    rw [ih (updLast a y), ih (updLast none y)]
    cases hys : ys.foldl updLast none with
    | some l => simp
    | none =>
      simp only []
      unfold updLast
      split <;> rfl

theorem foldl_processLine_dp (lines : List (List Char)) (m : SQLMetadata) :
    (lines.foldl processLine m).directProd =
      match lastDPLine lines with
      | some l => some (directProdLineVal l)
      | none => m.directProd := by
  induction lines generalizing m with
  | nil => simp [lastDPLine]
  | cons x xs ih =>
    simp only [List.foldl_cons, lastDPLine] at *
    rw [ih (processLine m x), foldl_updLast xs (updLast none x)]
    cases hxs : xs.foldl updLast none with
    | some l => simp
    | none =>
      simp only []
      cases ht : trigDP x with
      | true => simp [updLast, ht, processLine_dp_trig m x ht]
      | false => simp [updLast, ht, processLine_dp_not_trig m x ht]

theorem parseSQLMetadata_dp (content : String) :
    (parseSQLMetadata content).directProd =
      match lastDPLine (first20 content) with
      | some l => some (directProdLineVal l)
      | none => none := by
  have h : parseSQLMetadata content = (first20 content).foldl processLine {} := rfl
  rw [h, foldl_processLine_dp]

theorem namesOf_cons (n : String) (r : ScriptRow) (l : Registry) :
    namesOf ((n, r) :: l) = n :: namesOf l := rfl

theorem lookup_addApprovedScript (reg : Registry) (d : UpsertData) (now : Nat)
    (m : String) :
    lookupScript (addApprovedScript reg d now) m =
      if m = d.scriptName then
        some
          (match lookupScript reg d.scriptName with
           | none => freshRow d now
           | some old => mergeRow old d now)
      else lookupScript reg m := by
  induction reg with
  | nil =>
    by_cases hm : m = d.scriptName
    · simp [addApprovedScript, lookupScript, hm]
    · simp [addApprovedScript, lookupScript, hm, Ne.symm hm]
  | cons p rest ih =>
    obtain ⟨n, r⟩ := p
    simp only [addApprovedScript]
    by_cases hn : n = d.scriptName
    · rw [if_pos hn]
      by_cases hm : m = d.scriptName
      · have hnm : n = m := by rw [hn, hm]
        simp [lookupScript, hnm, hm, hn]
      · have hnm : ¬n = m := fun h => hm (by rw [← h, hn])
        simp [lookupScript, hnm, hm]
    · rw [if_neg hn]
      by_cases hnm : n = m
      · have hm : ¬m = d.scriptName := fun h => hn (by rw [hnm, h])
        simp [lookupScript, hnm, hm, hn]
      · simp [lookupScript, hnm, hn, ih]

theorem lookup_updateScriptExecutionStatus (reg : Registry) (name : String)
    (t : DBTarget) (now : Nat) (m : String) :
    lookupScript (updateScriptExecutionStatus reg name t now) m =
      if m = name then (lookupScript reg m).map (markExecuted t now)
      else lookupScript reg m := by
  induction reg with
  | nil => simp [updateScriptExecutionStatus, lookupScript]
  | cons p rest ih =>
    obtain ⟨n, r⟩ := p
    simp only [updateScriptExecutionStatus]
    by_cases hn : n = name
    · rw [if_pos hn]
      by_cases hnm : n = m
      · have hm : m = name := by rw [← hnm, hn]
        simp [lookupScript, hnm, hm]
      · have hm : ¬m = name := fun h => hnm (by rw [hn, ← h])
        simp [lookupScript, hnm, hm]
    · rw [if_neg hn]
      by_cases hnm : n = m
      · have hm : ¬m = name := fun h => hn (hnm.trans h)
        simp [lookupScript, hnm, hm]
      · simp [lookupScript, hnm, ih]

theorem mem_namesOf_addApprovedScript (reg : Registry) (d : UpsertData)
    (now : Nat) (m : String) :
    m ∈ namesOf (addApprovedScript reg d now) ↔
      m = d.scriptName ∨ m ∈ namesOf reg := by
  induction reg with
  | nil => simp [addApprovedScript, namesOf]
  | cons p rest ih =>
    obtain ⟨n, r⟩ := p
    by_cases hn : n = d.scriptName
    · simp only [addApprovedScript, if_pos hn, namesOf_cons, List.mem_cons]
      rw [hn]
      tauto
    · simp only [addApprovedScript, if_neg hn, namesOf_cons, List.mem_cons]
      rw [ih]
      tauto

theorem syncFileStep_known_mono (fetch : String → Option String)
    (prUrl : String) (apps : List String) (now : Nat) (acc : SyncState)
    (f : String × String) (x : String) (hx : x ∈ acc.known) :
    x ∈ (syncFileStep fetch prUrl apps now acc f).known := by
  unfold syncFileStep
  by_cases hk : scriptNameOf f.1 ∈ acc.known
  · simp [hk, hx]
  · simp only [hk, if_false, if_neg hk]
    cases hf : fetch f.1 with
    | none => simpa using hx
    | some c => simp [hx]

theorem syncFilesFold_known_mono (fetch : String → Option String)
    (prUrl : String) (apps : List String) (now : Nat) :
    ∀ (fs : List (String × String)) (acc : SyncState) (x : String),
      x ∈ acc.known →
      x ∈ (fs.foldl (syncFileStep fetch prUrl apps now) acc).known := by
  intro fs
  induction fs with
  | nil => intro acc x hx; simpa using hx
  | cons g gs ih =>
    intro acc x hx
    simp only [List.foldl_cons]
    exact ih _ _ (syncFileStep_known_mono fetch prUrl apps now acc g x hx)

theorem syncFileStep_adds (fetch : String → Option String)
    (hfetch : ∀ p, (fetch p).isSome = true) (prUrl : String)
    (apps : List String) (now : Nat) (acc : SyncState) (f : String × String) :
    scriptNameOf f.1 ∈ (syncFileStep fetch prUrl apps now acc f).known := by
  unfold syncFileStep
  by_cases hk : scriptNameOf f.1 ∈ acc.known
  · simp [hk]
  · simp only [hk, if_neg hk]
    cases hf : fetch f.1 with
    | none =>
      have := hfetch f.1
      rw [hf] at this
      exact absurd this (by simp)
    | some c => simp

theorem syncFilesFold_covers (fetch : String → Option String)
    (hfetch : ∀ p, (fetch p).isSome = true) (prUrl : String)
    (apps : List String) (now : Nat) :
    ∀ (fs : List (String × String)) (acc : SyncState) (f : String × String),
      f ∈ fs →
      scriptNameOf f.1 ∈ (fs.foldl (syncFileStep fetch prUrl apps now) acc).known := by
  intro fs
  induction fs with
  | nil => intro acc f hf; cases hf
  | cons g gs ih =>
    intro acc f hf
    simp only [List.foldl_cons]
    rcases List.mem_cons.mp hf with hfg | hfgs
    · subst hfg
      exact syncFilesFold_known_mono fetch prUrl apps now gs _ _
        (syncFileStep_adds fetch hfetch prUrl apps now acc f)
    · exact ih _ _ hfgs

theorem syncPRStep_known_mono (fetch : String → Option String)
    (minApprovals now : Nat) (acc : SyncState) (pr : SyncPR) (x : String)
    (hx : x ∈ acc.known) :
    x ∈ (syncPRStep fetch minApprovals now acc pr).known := by
  unfold syncPRStep
  by_cases ha : pr.approvers.length < minApprovals
  · simp [ha, hx]
  · simp only [ha, if_neg ha]
    by_cases he : (pr.files.filter qualifiesSQL).isEmpty = true
    · simp [he, hx]
    · simp only [he, if_neg he, Bool.false_eq_true, if_false]
      exact syncFilesFold_known_mono fetch pr.htmlUrl pr.approvers now _ _ _ hx

theorem syncPRsFold_known_mono (fetch : String → Option String)
    (minApprovals now : Nat) :
    ∀ (prs : List SyncPR) (acc : SyncState) (x : String),
      x ∈ acc.known →
      x ∈ (prs.foldl (syncPRStep fetch minApprovals now) acc).known := by
  intro prs
  induction prs with
  | nil => intro acc x hx; simpa using hx
  | cons q qs ih =>
    intro acc x hx
    simp only [List.foldl_cons]
    exact ih _ _ (syncPRStep_known_mono fetch minApprovals now acc q x hx)

theorem syncPRsFold_covers (fetch : String → Option String)
    (hfetch : ∀ p, (fetch p).isSome = true) (minApprovals now : Nat) :
    ∀ (prs : List SyncPR) (acc : SyncState) (pr : SyncPR)
      (f : String × String),
      pr ∈ prs → ¬pr.approvers.length < minApprovals →
      f ∈ pr.files.filter qualifiesSQL →
      scriptNameOf f.1 ∈ (prs.foldl (syncPRStep fetch minApprovals now) acc).known := by
  intro prs
  induction prs with
  | nil => intro acc pr f hpr _ _; cases hpr
  | cons q qs ih =>
    intro acc pr f hpr ha hf
    simp only [List.foldl_cons]
    rcases List.mem_cons.mp hpr with hq | hqs
    · subst hq
      apply syncPRsFold_known_mono fetch minApprovals now qs
      unfold syncPRStep
      have hne : (pr.files.filter qualifiesSQL).isEmpty = false := by
        cases hsq : pr.files.filter qualifiesSQL with
        | nil => rw [hsq] at hf; cases hf
        | cons a as => rfl
      simp only [ha, if_neg ha, hne, Bool.false_eq_true, if_false]
      exact syncFilesFold_covers fetch hfetch pr.htmlUrl pr.approvers now _ _ _ hf
    · exact ih _ _ _ hqs ha hf

theorem syncFileStep_knownMatch (fetch : String → Option String)
    (prUrl : String) (apps : List String) (now : Nat) (acc : SyncState)
    (f : String × String)
    (h : ∀ x, x ∈ acc.known ↔ x ∈ namesOf acc.reg) :
    ∀ x, x ∈ (syncFileStep fetch prUrl apps now acc f).known ↔
      x ∈ namesOf (syncFileStep fetch prUrl apps now acc f).reg := by
  intro x
  unfold syncFileStep
  by_cases hk : scriptNameOf f.1 ∈ acc.known
  · simpa [hk] using h x
  · simp only [if_neg hk]
    cases hf : fetch f.1 with
    | none => simpa using h x
    | some c =>
      simp only [List.mem_cons, mem_namesOf_addApprovedScript, upsertDataFor]
      rw [h x]

theorem syncFilesFold_knownMatch (fetch : String → Option String)
    (prUrl : String) (apps : List String) (now : Nat) :
    ∀ (fs : List (String × String)) (acc : SyncState),
      (∀ x, x ∈ acc.known ↔ x ∈ namesOf acc.reg) →
      ∀ x, x ∈ (fs.foldl (syncFileStep fetch prUrl apps now) acc).known ↔
        x ∈ namesOf (fs.foldl (syncFileStep fetch prUrl apps now) acc).reg := by
  intro fs
  induction fs with
  | nil => intro acc h x; simpa using h x
  | cons g gs ih =>
    intro acc h x
    simp only [List.foldl_cons]
    exact ih _ (syncFileStep_knownMatch fetch prUrl apps now acc g h) x

theorem syncPRStep_knownMatch (fetch : String → Option String)
    (minApprovals now : Nat) (acc : SyncState) (pr : SyncPR)
    (h : ∀ x, x ∈ acc.known ↔ x ∈ namesOf acc.reg) :
    ∀ x, x ∈ (syncPRStep fetch minApprovals now acc pr).known ↔
      x ∈ namesOf (syncPRStep fetch minApprovals now acc pr).reg := by
  intro x
  unfold syncPRStep
  by_cases ha : pr.approvers.length < minApprovals
  · simpa [ha] using h x
  · simp only [ha, if_neg ha]
    by_cases he : (pr.files.filter qualifiesSQL).isEmpty = true
    · simpa [he] using h x
    · simp only [he, Bool.false_eq_true, if_false]
      exact syncFilesFold_knownMatch fetch pr.htmlUrl pr.approvers now _ acc h x

theorem syncPRsFold_knownMatch (fetch : String → Option String)
    (minApprovals now : Nat) :
    ∀ (prs : List SyncPR) (acc : SyncState),
      (∀ x, x ∈ acc.known ↔ x ∈ namesOf acc.reg) →
      ∀ x, x ∈ (prs.foldl (syncPRStep fetch minApprovals now) acc).known ↔
        x ∈ namesOf (prs.foldl (syncPRStep fetch minApprovals now) acc).reg := by
  intro prs
  induction prs with
  | nil => intro acc h x; simpa using h x
  | cons q qs ih =>
    intro acc h x
    simp only [List.foldl_cons]
    exact ih _ (syncPRStep_knownMatch fetch minApprovals now acc q h) x

theorem syncFilesFold_skip (fetch : String → Option String) (prUrl : String)
    (apps : List String) (now : Nat) :
    ∀ (fs : List (String × String)) (acc : SyncState),
      (∀ f ∈ fs, scriptNameOf f.1 ∈ acc.known) →
      (fs.foldl (syncFileStep fetch prUrl apps now) acc).reg = acc.reg ∧
      (fs.foldl (syncFileStep fetch prUrl apps now) acc).known = acc.known ∧
      (fs.foldl (syncFileStep fetch prUrl apps now) acc).synced = acc.synced ∧
      (fs.foldl (syncFileStep fetch prUrl apps now) acc).errors = acc.errors := by
  intro fs
  induction fs with
  | nil => intro acc _; exact ⟨rfl, rfl, rfl, rfl⟩
  | cons g gs ih =>
    intro acc hcov
    have hg : scriptNameOf g.1 ∈ acc.known := hcov g (List.mem_cons_self g gs)
    have hstep : syncFileStep fetch prUrl apps now acc g =
        { acc with skipped := acc.skipped + 1 } := by
      unfold syncFileStep
      simp [hg]
    simp only [List.foldl_cons, hstep]
    exact ih { acc with skipped := acc.skipped + 1 }
      (fun f hf => hcov f (List.mem_cons_of_mem g hf))

theorem syncPRStep_skip (fetch : String → Option String)
    (minApprovals now : Nat) (acc : SyncState) (pr : SyncPR)
    (hcov : ¬pr.approvers.length < minApprovals →
      ∀ f ∈ pr.files.filter qualifiesSQL, scriptNameOf f.1 ∈ acc.known) :
    (syncPRStep fetch minApprovals now acc pr).reg = acc.reg ∧
    (syncPRStep fetch minApprovals now acc pr).known = acc.known ∧
    (syncPRStep fetch minApprovals now acc pr).synced = acc.synced ∧
    (syncPRStep fetch minApprovals now acc pr).errors = acc.errors := by
  unfold syncPRStep
  by_cases ha : pr.approvers.length < minApprovals
  · simp [ha]
  · simp only [ha, if_neg ha]
    by_cases he : (pr.files.filter qualifiesSQL).isEmpty = true
    · simp [he]
    · simp only [he, Bool.false_eq_true, if_false]
      exact syncFilesFold_skip fetch pr.htmlUrl pr.approvers now _ acc (hcov ha)

theorem syncPRsFold_skip (fetch : String → Option String)
    (minApprovals now : Nat) :
    ∀ (prs : List SyncPR) (acc : SyncState),
      (∀ pr ∈ prs, ¬pr.approvers.length < minApprovals →
        ∀ f ∈ pr.files.filter qualifiesSQL, scriptNameOf f.1 ∈ acc.known) →
      (prs.foldl (syncPRStep fetch minApprovals now) acc).reg = acc.reg ∧
      (prs.foldl (syncPRStep fetch minApprovals now) acc).synced = acc.synced ∧
      (prs.foldl (syncPRStep fetch minApprovals now) acc).errors = acc.errors := by
  intro prs
  induction prs with
  | nil => intro acc _; exact ⟨rfl, rfl, rfl⟩
  | cons q qs ih =>
    intro acc hcov
    obtain ⟨hr, hk, hs, he⟩ :=
      syncPRStep_skip fetch minApprovals now acc q (hcov q (List.mem_cons_self q qs))
    simp only [List.foldl_cons]
    obtain ⟨ihr, ihs, ihe⟩ := ih (syncPRStep fetch minApprovals now acc q)
      (fun pr hpr hna f hf => by
        rw [hk]
        exact hcov pr (List.mem_cons_of_mem q hpr) hna f hf)
    exact ⟨ihr.trans hr, ihs.trans hs, ihe.trans he⟩

/-! ### Claim C1 -/

/-- C1, counterexample: the claimed storage invariant (never
`production_executed` with both `staging_executed` and `direct_prod`
false) fails on a reachable state: register a script with the bypass
flag, execute it on production successfully, then webhook-re-upsert the
same name without the flag — the upsert overwrites `direct_prod` while
preserving `production_executed`. -/
theorem C1_storage_invariant_counterexample :
    registryInvariant (runTrace c1Trace).registry = false ∧
    (lookupScript (runTrace c1Trace).registry "a.sql").map
        (fun r => (r.productionExecuted, r.stagingExecuted, r.directProd)) =
      some (true, false, false) := by
  constructor
  · decide
  · decide

/-- C1, amended: what the code does guarantee is the transition-time
guard — whenever a step of the system makes a script's
`production_executed` true (it was not observable before), the script
already satisfied `staging_executed ∨ direct_prod` at that moment; the
storage invariant itself can later be broken by an upsert that lowers
`direct_prod`. -/
theorem C1_production_guard_at_transition (s : SysState) (e : Event)
    (name : String) (row2 : ScriptRow)
    (hlook : lookupScript (stepEvent s e).registry name = some row2)
    (hprod : row2.productionExecuted = true) :
    ∃ row, lookupScript s.registry name = some row ∧
      (row.productionExecuted || row.stagingExecuted || row.directProd) = true := by
  cases e with
  | webhookUpsert d now =>
    simp only [stepEvent] at hlook
    rw [lookup_addApprovedScript] at hlook
    by_cases hm : name = d.scriptName
    · rw [if_pos hm] at hlook
      cases hold : lookupScript s.registry d.scriptName with
      | none =>
        rw [hold] at hlook
        simp only [Option.some.injEq] at hlook
        rw [← hlook] at hprod
        simp [freshRow] at hprod
      | some old =>
        rw [hold] at hlook
        simp only [Option.some.injEq] at hlook
        refine ⟨old, by rw [hm, hold], ?_⟩
        rw [← hlook] at hprod
        simp only [mergeRow] at hprod
        simp [hprod]
    · rw [if_neg hm] at hlook
      exact ⟨row2, hlook, by simp [hprod]⟩
  | syncUpsert d now =>
    simp only [stepEvent] at hlook
    split at hlook
    · exact ⟨row2, hlook, by simp [hprod]⟩
    · rename_i hex
      simp only [] at hlook
      rw [lookup_addApprovedScript] at hlook
      by_cases hm : name = d.scriptName
      · rw [if_pos hm] at hlook
        have hnone : lookupScript s.registry d.scriptName = none := by
          cases hc : lookupScript s.registry d.scriptName with
          | none => rfl
          | some v => rw [hc] at hex; simp at hex
        rw [hnone] at hlook
        simp only [Option.some.injEq] at hlook
        rw [← hlook] at hprod
        simp [freshRow] at hprod
      · rw [if_neg hm] at hlook
        exact ⟨row2, hlook, by simp [hprod]⟩
  | execute nm user target res now =>
    simp only [stepEvent, executeScriptAction] at hlook
    cases hscr : lookupScript s.registry nm with
    | none =>
      rw [hscr] at hlook
      exact ⟨row2, hlook, by simp [hprod]⟩
    | some script =>
      rw [hscr] at hlook
      simp only [] at hlook
      split at hlook
      · exact ⟨row2, hlook, by simp [hprod]⟩
      · rename_i hguard
        simp only [] at hlook
        cases hsucc : res.success with
        | false =>
          rw [hsucc] at hlook
          simp only [Bool.false_eq_true, if_false] at hlook
          exact ⟨row2, hlook, by simp [hprod]⟩
        | true =>
          rw [hsucc] at hlook
          simp only [if_true] at hlook
          rw [lookup_updateScriptExecutionStatus] at hlook
          by_cases hm : name = nm
          · rw [if_pos hm] at hlook
            subst hm
            rw [hscr] at hlook
            simp only [Option.map_some', Option.some.injEq] at hlook
            cases target with
            | staging =>
              refine ⟨script, hscr, ?_⟩
              rw [← hlook] at hprod
              simp only [markExecuted] at hprod
              simp [hprod]
            | production =>
              have hcan : canExecuteOnProduction s.registry name = true := by
                by_contra hc
                exact hguard ⟨rfl, by simpa using hc⟩
              unfold canExecuteOnProduction at hcan
              rw [hscr] at hcan
              refine ⟨script, hscr, ?_⟩
              have hor : script.stagingExecuted = true ∨ script.directProd = true := by
                simpa using hcan
              rcases hor with h | h <;> simp [h]
          · rw [if_neg hm] at hlook
            exact ⟨row2, hlook, by simp [hprod]⟩

/-- C1, witness for the amended theorem at a concrete staged script and
a successful production execution. -/
theorem C1_production_guard_at_transition_witness :
    lookupScript (stepEvent
        { registry := [("a.sql", sampleRow true false)], log := [] }
        (Event.execute "a.sql" "op" DBTarget.production sampleResult 7)).registry
        "a.sql" =
      some (markExecuted DBTarget.production 7 (sampleRow true false)) ∧
    (markExecuted DBTarget.production 7 (sampleRow true false)).productionExecuted = true ∧
    (∃ row,
      lookupScript
          ({ registry := [("a.sql", sampleRow true false)], log := [] } : SysState).registry
          "a.sql" = some row ∧
      (row.productionExecuted || row.stagingExecuted || row.directProd) = true) :=
  ⟨by decide, by decide,
    C1_production_guard_at_transition
      { registry := [("a.sql", sampleRow true false)], log := [] }
      (Event.execute "a.sql" "op" DBTarget.production sampleResult 7)
      "a.sql" (markExecuted DBTarget.production 7 (sampleRow true false))
      (by decide) (by decide)⟩

/-! ### Claim C2 -/

/-- C2: a production-execution request on a registered script is
dispatched iff `staging_executed ∨ direct_prod` holds for its row; when
neither holds the action refuses before any SQL is dispatched, leaving
the registry and the audit log exactly as they were. -/
theorem C2_production_gate (s : SysState) (name user : String)
    (res : ExecutionResult) (now : Nat) (row : ScriptRow)
    (hlook : lookupScript s.registry name = some row) :
    ((executeScriptAction s name user DBTarget.production res now).2 ≠
        ActionOutcome.refused ↔
      (row.stagingExecuted || row.directProd) = true) ∧
    ((row.stagingExecuted || row.directProd) = false →
      executeScriptAction s name user DBTarget.production res now =
        (s, ActionOutcome.refused)) := by
  have hcan : canExecuteOnProduction s.registry name =
      (row.stagingExecuted || row.directProd) := by
    unfold canExecuteOnProduction
    rw [hlook]
  constructor
  · cases hg : (row.stagingExecuted || row.directProd) with
    | false => simp [executeScriptAction, hlook, hcan, hg]
    | true => simp [executeScriptAction, hlook, hcan, hg]
  · intro hg
    simp [executeScriptAction, hlook, hcan, hg]

/-- C2, witness: a registered script with neither flag set is refused
on production with the state untouched. -/
theorem C2_production_gate_witness :
    lookupScript ({ registry := [("a.sql", sampleRow false false)], log := [] } :
        SysState).registry "a.sql" = some (sampleRow false false) ∧
    (((executeScriptAction { registry := [("a.sql", sampleRow false false)], log := [] }
          "a.sql" "op" DBTarget.production sampleResult 9).2 ≠
        ActionOutcome.refused ↔
      ((sampleRow false false).stagingExecuted ||
        (sampleRow false false).directProd) = true) ∧
    (((sampleRow false false).stagingExecuted ||
        (sampleRow false false).directProd) = false →
      executeScriptAction { registry := [("a.sql", sampleRow false false)], log := [] }
          "a.sql" "op" DBTarget.production sampleResult 9 =
        ({ registry := [("a.sql", sampleRow false false)], log := [] },
          ActionOutcome.refused))) :=
  ⟨by decide,
    C2_production_gate { registry := [("a.sql", sampleRow false false)], log := [] }
      "a.sql" "op" sampleResult 9 (sampleRow false false) (by decide)⟩

/-! ### Claim C3 -/

/-- C3: every dispatched execution attempt (not refused by the guard)
appends exactly one audit-log entry whether the SQL succeeded or
failed, and a failed attempt leaves the registry — hence every
promotion flag and timestamp — unchanged. -/
theorem C3_dispatched_logs_once (s : SysState) (name user : String)
    (target : DBTarget) (res : ExecutionResult) (now : Nat) (row : ScriptRow)
    (hlook : lookupScript s.registry name = some row)
    (hdisp : ¬(target = DBTarget.production ∧
      canExecuteOnProduction s.registry name = false)) :
    (executeScriptAction s name user target res now).1.log =
      s.log ++ [mkLogEntry row name user target res] ∧
    (res.success = false →
      (executeScriptAction s name user target res now).1.registry = s.registry) := by
  simp only [executeScriptAction, hlook]
  rw [if_neg hdisp]
  constructor
  · rfl
  · intro hf
    simp [hf]

/-- C3, witness: a failed staging execution on a registered script logs
one entry and leaves the registry unchanged. -/
theorem C3_dispatched_logs_once_witness :
    lookupScript ({ registry := [("a.sql", sampleRow false false)], log := [] } :
        SysState).registry "a.sql" = some (sampleRow false false) ∧
    ¬(DBTarget.staging = DBTarget.production ∧
      canExecuteOnProduction [("a.sql", sampleRow false false)] "a.sql" = false) ∧
    ((executeScriptAction { registry := [("a.sql", sampleRow false false)], log := [] }
          "a.sql" "op" DBTarget.staging
          { success := false, error := some "boom", executionTime := some 2 } 9).1.log =
        [] ++ [mkLogEntry (sampleRow false false) "a.sql" "op" DBTarget.staging
          { success := false, error := some "boom", executionTime := some 2 }] ∧
      ({ success := false, error := some "boom",
          executionTime := some 2 : ExecutionResult }.success = false →
        (executeScriptAction { registry := [("a.sql", sampleRow false false)], log := [] }
            "a.sql" "op" DBTarget.staging
            { success := false, error := some "boom", executionTime := some 2 } 9).1.registry =
          [("a.sql", sampleRow false false)])) :=
  ⟨by decide, by decide,
    C3_dispatched_logs_once
      { registry := [("a.sql", sampleRow false false)], log := [] }
      "a.sql" "op" DBTarget.staging
      { success := false, error := some "boom", executionTime := some 2 } 9
      (sampleRow false false) (by decide) (by decide)⟩

/-! ### Claim C4 -/

/-- C4, counterexample: with a PR whose single qualifying file's fetch
persistently fails, the first sync pass reports one error and the
second pass over the same merged changes reports one error again, not
zero — the claimed unconditional "second run reports zero errors"
fails. -/
theorem C4_second_sync_errors_counterexample :
    (syncScriptsFromGitHub [c4PR] (fun _ => none) 2 [] 0).errors = 1 ∧
    (syncScriptsFromGitHub [c4PR] (fun _ => none) 2
        (syncScriptsFromGitHub [c4PR] (fun _ => none) 2 [] 0).reg 1).errors = 1 := by
  constructor
  · decide
  · decide

/-- C4, amended: provided every file fetch succeeds (no transient fetch
failures — a persistently failing fetch is re-counted as an error on
every pass), a second full sync over the same merged changes leaves the
registry unchanged and reports zero synced and zero errors. -/
theorem C4_sync_idempotent_when_fetch_total (prs : List SyncPR)
    (fetch : String → Option String) (minApprovals : Nat) (reg0 : Registry)
    (t1 t2 : Nat) (hfetch : ∀ p, (fetch p).isSome = true) :
    (syncScriptsFromGitHub prs fetch minApprovals
        (syncScriptsFromGitHub prs fetch minApprovals reg0 t1).reg t2).reg =
      (syncScriptsFromGitHub prs fetch minApprovals reg0 t1).reg ∧
    (syncScriptsFromGitHub prs fetch minApprovals
        (syncScriptsFromGitHub prs fetch minApprovals reg0 t1).reg t2).synced = 0 ∧
    (syncScriptsFromGitHub prs fetch minApprovals
        (syncScriptsFromGitHub prs fetch minApprovals reg0 t1).reg t2).errors = 0 := by
  have hkm1 : ∀ x,
      x ∈ (syncScriptsFromGitHub prs fetch minApprovals reg0 t1).known ↔
      x ∈ namesOf (syncScriptsFromGitHub prs fetch minApprovals reg0 t1).reg := by
    unfold syncScriptsFromGitHub
    exact syncPRsFold_knownMatch fetch minApprovals t1 prs _ (fun x => Iff.rfl)
  have hcov1 : ∀ pr ∈ prs, ¬pr.approvers.length < minApprovals →
      ∀ f ∈ pr.files.filter qualifiesSQL,
      scriptNameOf f.1 ∈ (syncScriptsFromGitHub prs fetch minApprovals reg0 t1).known := by
    intro pr hpr hna f hf
    unfold syncScriptsFromGitHub
    exact syncPRsFold_covers fetch hfetch minApprovals t1 prs _ pr f hpr hna hf
  have hcov2 : ∀ pr ∈ prs, ¬pr.approvers.length < minApprovals →
      ∀ f ∈ pr.files.filter qualifiesSQL,
      scriptNameOf f.1 ∈
        ({ reg := (syncScriptsFromGitHub prs fetch minApprovals reg0 t1).reg,
           known := namesOf (syncScriptsFromGitHub prs fetch minApprovals reg0 t1).reg,
           synced := 0, skipped := 0, errors := 0 } : SyncState).known := by
    intro pr hpr hna f hf
    exact (hkm1 _).mp (hcov1 pr hpr hna f hf)
  have main := syncPRsFold_skip fetch minApprovals t2 prs
    { reg := (syncScriptsFromGitHub prs fetch minApprovals reg0 t1).reg,
      known := namesOf (syncScriptsFromGitHub prs fetch minApprovals reg0 t1).reg,
      synced := 0, skipped := 0, errors := 0 } hcov2
  exact ⟨main.1, main.2.1, main.2.2⟩

/-- C4, witness for the amended theorem: one PR, a total fetch, two
passes — the second changes nothing and tallies zero synced and zero
errors. -/
theorem C4_sync_idempotent_when_fetch_total_witness :
    (∀ p : String, ((fun _ => some "SELECT 1;") p : Option String).isSome = true) ∧
    ((syncScriptsFromGitHub [c4PR] (fun _ => some "SELECT 1;") 2
        (syncScriptsFromGitHub [c4PR] (fun _ => some "SELECT 1;") 2 [] 0).reg 1).reg =
      (syncScriptsFromGitHub [c4PR] (fun _ => some "SELECT 1;") 2 [] 0).reg ∧
    (syncScriptsFromGitHub [c4PR] (fun _ => some "SELECT 1;") 2
        (syncScriptsFromGitHub [c4PR] (fun _ => some "SELECT 1;") 2 [] 0).reg 1).synced = 0 ∧
    (syncScriptsFromGitHub [c4PR] (fun _ => some "SELECT 1;") 2
        (syncScriptsFromGitHub [c4PR] (fun _ => some "SELECT 1;") 2 [] 0).reg 1).errors = 0) :=
  ⟨fun _ => rfl,
    C4_sync_idempotent_when_fetch_total [c4PR] (fun _ => some "SELECT 1;") 2 [] 0 1
      (fun _ => rfl)⟩

/-! ### Claim C5 -/

/-- C5: with no configured secret (empty string, the config default)
verification accepts unconditionally; with a secret, verification
succeeds iff the claimed signature equals "sha256=" followed by the hex
HMAC-SHA256 digest of the raw body under the secret (the node crypto
primitive is the external `hmacHex` capability), and on a mismatch the
webhook action answers with the authentication error before any further
processing, leaving the registry unchanged. -/
theorem C5_webhook_signature (hmacHex : String → String → String)
    (secret payload sigv : String) (minApprovals : Nat)
    (parseJson : String → Option WebhookEventData) (env : PlatformEnv)
    (reg : Registry) (now : Nat) (hsec : secret ≠ "") :
    verifyWebhookSignature hmacHex "" payload sigv = true ∧
    (verifyWebhookSignature hmacHex secret payload sigv = true ↔
      sigv = "sha256=" ++ hmacHex secret payload) ∧
    (sigv ≠ "sha256=" ++ hmacHex secret payload →
      webhookAction hmacHex secret minApprovals "POST" (some sigv) payload
          parseJson env reg now = (reg, WebhookResponse.invalidSignature)) := by
  refine ⟨by simp [verifyWebhookSignature], ?_, ?_⟩
  · unfold verifyWebhookSignature
    rw [if_neg hsec]
    simp
  · intro hne
    have hv : verifyWebhookSignature hmacHex secret payload sigv = false := by
      unfold verifyWebhookSignature
      rw [if_neg hsec]
      exact beq_eq_false_iff_ne.mpr hne
    simp [webhookAction, hv]

/-- C5, witness at a concrete secret, payload and wrong signature, with
a placeholder external digest function. -/
theorem C5_webhook_signature_witness :
    ("k" : String) ≠ "" ∧
    (verifyWebhookSignature (fun s b => s ++ b) "" "p" "bad" = true ∧
    (verifyWebhookSignature (fun s b => s ++ b) "k" "p" "bad" = true ↔
      ("bad" : String) = "sha256=" ++ (fun (s b : String) => s ++ b) "k" "p") ∧
    (("bad" : String) ≠ "sha256=" ++ (fun (s b : String) => s ++ b) "k" "p" →
      webhookAction (fun s b => s ++ b) "k" 2 "POST" (some "bad") "p"
          (fun _ => none) trivialEnv [] 0 = ([], WebhookResponse.invalidSignature))) :=
  ⟨by decide,
    C5_webhook_signature (fun s b => s ++ b) "k" "p" "bad" 2 (fun _ => none)
      trivialEnv [] 0 (by decide)⟩

/-! ### Claim C6 -/

/-- C6, counterexample: a failed platform call is indistinguishable
from an empty successful result — the approver and file listings return
the same empty list for a rejected call as for a successful empty one,
and a failed content fetch returns the same null as a not-found. -/
theorem C6_failure_masked_counterexample :
    getPRApprovers (Except.error "network failure") = getPRApprovers (Except.ok []) ∧
    getPRFiles (Except.error "network failure") = getPRFiles (Except.ok []) ∧
    fetchScriptFromGitHub (Except.error "auth failure") =
      fetchScriptFromGitHub (Except.ok none) :=
  ⟨rfl, rfl, rfl⟩

/-- C6, amended: the catch-handlers swallow every platform failure and
return the empty default — the empty approver list, the empty file
list, or null content — so the caller cannot distinguish a failed call
from an empty success or a not-found. -/
theorem C6_failures_swallowed (e : String) :
    getPRApprovers (Except.error e) = [] ∧
    getPRFiles (Except.error e) = [] ∧
    fetchScriptFromGitHub (Except.error e) = none :=
  ⟨rfl, rfl, rfl⟩

/-- C6, witness at a concrete error message. -/
theorem C6_failures_swallowed_witness :
    getPRApprovers (Except.error "boom") = [] ∧
    getPRFiles (Except.error "boom") = [] ∧
    fetchScriptFromGitHub (Except.error "boom") = none :=
  C6_failures_swallowed "boom"

/-! ### Claim C7 -/

/-- C7, counterexample: a separator spelling of the bypass marker with
an explicit true value — `-- direct-prod: true` — enters the DirectProd
branch (the includes-check accepts all three spellings) but the pattern
only matches the contiguous spelling, so the parsed flag is false, not
true as claimed. -/
theorem C7_separator_spelling_counterexample :
    (parseSQLMetadata "-- direct-prod: true").directProd = some false ∧
    (parseSQLMetadata "-- direct-prod: true").directProd ≠ some true := by
  constructor
  · decide
  · decide

/-- C7, amended: only the contiguous `-- DirectProd` spelling (any
letter case, optional colon, optional value) parses as an enabled
bypass: whenever the last line of the 20-line window that enters the
DirectProd branch matches the contiguous pattern — with a value of
true, yes or 1, with another value, or bare — the parsed flag is true;
separator spellings never match the pattern and parse as false. -/
theorem C7_contiguous_spelling_flag (content : String) (l : List Char)
    (hlast : lastDPLine (first20 content) = some l)
    (hmatch : (directProdMatch l).isSome = true) :
    (parseSQLMetadata content).directProd = some true := by
  rw [parseSQLMetadata_dp, hlast]
  simp only []
  rw [directProdLineVal_isSome, hmatch]

/-- C7, witness: a mixed-case contiguous spelling with the value yes
parses as an enabled bypass. -/
theorem C7_contiguous_spelling_flag_witness :
    lastDPLine (first20 "-- directPROD: yes") = some "-- directPROD: yes".toList ∧
    (directProdMatch "-- directPROD: yes".toList).isSome = true ∧
    (parseSQLMetadata "-- directPROD: yes").directProd = some true :=
  ⟨by decide, by decide,
    C7_contiguous_spelling_flag "-- directPROD: yes" "-- directPROD: yes".toList
      (by decide) (by decide)⟩

/-! ### Claim C8 -/

/-- C8: the claim (and the function's own doc comment, and the repo's
example scripts) says a `-- TargetDatabase: production` directive
resolves the target environment to production, but the parser only
recognizes the `-- Target:` prefix, so the directive is ignored and the
caller's default of staging wins; the `-- Target:` spelling does work.
This evaluates the code at the failing input. -/
theorem C8_targetdatabase_directive_ignored :
    extractTargetDatabase "report.sql"
        (some "-- TargetDatabase: production\nSELECT 1;") = none ∧
    resolvedTargetDb "report.sql"
        (some "-- TargetDatabase: production\nSELECT 1;") = DBTarget.staging ∧
    resolvedTargetDb "report.sql"
        (some "-- Target: production\nSELECT 1;") = DBTarget.production := by
  refine ⟨by decide, by decide, by decide⟩

/-! ### Claim C9 -/

/-- C9: for a statement classified as a read query, a driver result
with more than 100 rows is captured as exactly the first 100 rows
(truncation, still a success), and a driver result with zero rows
yields no captured result set and is not an error. -/
theorem C9_result_capture (sql : String) (rs : List RowData) (rc : Option Nat)
    (t : Nat) (hsel : isSelectQuery sql = true) :
    (100 < rs.length →
      (executeSQL sql (Except.ok { rows := some rs, rowCount := rc }) t).resultRows =
        some (rs.take 100) ∧
      (rs.take 100).length = 100 ∧
      (executeSQL sql (Except.ok { rows := some rs, rowCount := rc }) t).success = true) ∧
    ((executeSQL sql (Except.ok { rows := some [], rowCount := rc }) t).resultRows =
        none ∧
      (executeSQL sql (Except.ok { rows := some [], rowCount := rc }) t).success = true) := by
  constructor
  · intro hlen
    have hpos : 0 < rs.length := by omega
    refine ⟨?_, ?_, ?_⟩
    · simp [executeSQL, hsel, hpos, hlen]
    · simp [List.length_take]
      omega
    · simp [executeSQL]
  · constructor
    · simp [executeSQL, hsel]
    · simp [executeSQL]

/-- C9, witness: a SELECT with 101 returned rows captures exactly the
first 100; a SELECT with 0 returned rows captures nothing and
succeeds. -/
theorem C9_result_capture_witness :
    isSelectQuery "SELECT 1" = true ∧
    ((100 < (List.replicate 101 ([("a", "b")] : RowData)).length →
      (executeSQL "SELECT 1"
          (Except.ok
            { rows := some (List.replicate 101 ([("a", "b")] : RowData)),
              rowCount := some 0 }) 5).resultRows =
        some ((List.replicate 101 ([("a", "b")] : RowData)).take 100) ∧
      ((List.replicate 101 ([("a", "b")] : RowData)).take 100).length = 100 ∧
      (executeSQL "SELECT 1"
          (Except.ok
            { rows := some (List.replicate 101 ([("a", "b")] : RowData)),
              rowCount := some 0 }) 5).success = true) ∧
    ((executeSQL "SELECT 1"
          (Except.ok { rows := some [], rowCount := some 0 }) 5).resultRows = none ∧
      (executeSQL "SELECT 1"
          (Except.ok { rows := some [], rowCount := some 0 }) 5).success = true)) :=
  ⟨by decide,
    C9_result_capture "SELECT 1" (List.replicate 101 ([("a", "b")] : RowData))
      (some 0) 5 (by decide)⟩

/-! ### Claim C10 -/

/-- C10, counterexample: the claim quantifies over every body whose
first 20 lines contain `-- DirectProd: false`; a later line that merely
mentions a directprod spelling (here a SELECT over a `direct_prod`
column) re-enters the branch, fails the pattern and overwrites the flag
to false, so the parsed flag is not true as claimed.  The single-line
body, by contrast, does parse to true. -/
theorem C10_later_mention_counterexample :
    (parseSQLMetadata "-- DirectProd: false\nSELECT direct_prod FROM t;").directProd =
      some false ∧
    (parseSQLMetadata "-- DirectProd: false").directProd = some true := by
  constructor
  · decide
  · decide

/-- C10, amended: when the last line of the 20-line window that enters
the DirectProd branch matches the contiguous `-- DirectProd` pattern
with no recognized value captured — bare, or followed by an explicit
value other than true/yes/1 such as false or no — the parsed flag is
nevertheless true. -/
theorem C10_unrecognized_value_enables (content : String) (l : List Char)
    (hlast : lastDPLine (first20 content) = some l)
    (hmatch : directProdMatch l = some none) :
    (parseSQLMetadata content).directProd = some true := by
  rw [parseSQLMetadata_dp, hlast]
  simp only []
  rw [directProdLineVal_isSome, hmatch]
  rfl

/-- C10, witness: `-- DirectProd: false` with no later mention parses
as an enabled bypass. -/
theorem C10_unrecognized_value_enables_witness :
    lastDPLine (first20 "-- DirectProd: false") =
      some "-- DirectProd: false".toList ∧
    directProdMatch "-- DirectProd: false".toList = some none ∧
    (parseSQLMetadata "-- DirectProd: false").directProd = some true :=
  ⟨by decide, by decide,
    C10_unrecognized_value_enables "-- DirectProd: false"
      "-- DirectProd: false".toList (by decide) (by decide)⟩
